import Mathlib

/-! config-watcher: a shallow embedding of `config-watcher.go`

The watcher polls a list of files, fingerprints each one with SHA-256, and
signals a named process whenever a fingerprint differs from the remembered
baseline.

Modelling decisions:

* Go maps (`map[string]string`) are association lists with unique keys
  (`GoMap`).  `mapGet` is Go's `m[k]` (the zero value `""` for an absent key)
  and `mapSet` is `m[k] = v`.
* `for path, oldHash := range oldFileHashes` visits every key exactly once in
  an order the language leaves unspecified.  The order is an explicit input
  `order` of the loop; a legal order is a permutation of the keys of the map.
* Library code that is not part of the repository is taken as a parameter:
  the SHA-256 digest function, `unix.SignalNum`, `strconv.Atoi`, the process
  table of `go-ps` and the results of `os.FindProcess` and `Process.Signal`.
* The file system seen by one snapshot is a function from paths to
  `FileState`.
* Side effects (logging, sleeping, signalling) are returned as event lists.
-/

namespace ConfigWatcher

/-! ## Data model -/

/-- One octet of file content or of a digest. -/
abbrev Byte := Fin 256

/-- The Go struct `Config`. -/
structure Config where
  TargetFiles : List String
  TargetProcess : String
  ReloadSignal : Int
  SleepDuration : Int
  SleepBeforeReloadDuration : Int
  Verbose : Bool
  deriving DecidableEq

/-- The zero value `Config{}`. -/
def Config.zero : Config :=
  ⟨[], "", 0, 0, 0, false⟩

/-- A Go `map[string]string`: an association list with unique keys. -/
abbrev GoMap := List (String × String)

/-- The keys of a map, in storage order. -/
def mapKeys (m : GoMap) : List String :=
  m.map Prod.fst

/-- The Go expression `m[k]`: the stored value, or the zero value `""` when the key is absent. -/
def mapGet : GoMap → String → String
  | [], _ => ""
  | (k', v) :: rest, k => if k' = k then v else mapGet rest k

/-- The Go statement `m[k] = v`: overwrite an existing entry or add a new one. -/
def mapSet : GoMap → String → String → GoMap
  | [], k, v => [(k, v)]
  | (k', v') :: rest, k, v =>
    if k' = k then (k, v) :: rest else (k', v') :: mapSet rest k v

/-- What `os.Open` followed by `io.Copy` observes for one path. -/
inductive FileState where
  | openError (err : String)
  | readError (err : String)
  | content (bytes : List Byte)
  deriving DecidableEq

/-- The file system as seen by one snapshot. -/
abbrev FileSystem := String → FileState

/-- The observable state of a file: its bytes, or `none` when it cannot be read. -/
def FileState.observed : FileState → Option (List Byte)
  | .openError _ => none
  | .readError _ => none
  | .content bytes => some bytes

/-- Observable side effects. -/
inductive Event where
  | logHashError (path err : String)
  | logSending (signal pid : Int)
  | sleep (nanoseconds : Int)
  | listProcesses
  | findProcess (pid : Int)
  | signal (pid signal : Int)
  deriving DecidableEq

/-- One entry of the process table returned by `ps.Processes()`. -/
structure Process where
  Pid : Int
  Executable : String
  deriving DecidableEq

/-- The operating system as seen by one call of `reloadProcess`. -/
structure OS where
  /-- The result of `ps.Processes()`: the process list and an error (`none` is `nil`). -/
  Processes : List Process × Option String
  /-- The error of `os.FindProcess(pid)`. -/
  FindProcess : Int → Option String
  /-- The error of `proc.Signal(sig)` for the process `pid`. -/
  Signal : Int → Int → Option String

/-! ## Fingerprints -/

/-- The table `"0123456789abcdef"` of `encoding/hex`. -/
def hextable : String :=
  "0123456789abcdef"

/-- The character `hextable[n]`. -/
def hexDigit (n : Nat) : Char :=
  hextable.data.getD n '0'

/-- The characters of `hex.EncodeToString`: `hextable[v>>4]`, `hextable[v&0x0f]` per byte. -/
def hexChars : List Byte → List Char
  | [] => []
  | v :: rest => hexDigit (v.val / 16) :: hexDigit (v.val % 16) :: hexChars rest

/-- The Go function `hex.EncodeToString`. -/
def EncodeToString (src : List Byte) : String :=
  String.mk (hexChars src)

/-- The Go function `hashFile`: the hex digest and a `nil` error, or `""` and the error. -/
def hashFile (sha256 : List Byte → List Byte) (fs : FileSystem) (path : String) :
    String × Option String :=
  match fs path with
  | .openError err => ("", some err)
  | .readError err => ("", some err)
  | .content bytes => (EncodeToString (sha256 bytes), none)

/-- The loop of `updateFileHashes` over the remaining paths. -/
def updateLoop (sha256 : List Byte → List Byte) (fs : FileSystem) :
    List String → GoMap → GoMap × List Event
  | [], hashes => (hashes, [])
  | path :: rest, hashes =>
    match hashFile sha256 fs path with
    | (_, some err) =>
      let r := updateLoop sha256 fs rest (mapSet hashes path "")
      (r.1, Event.logHashError path err :: r.2)
    | (hash, none) => updateLoop sha256 fs rest (mapSet hashes path hash)

/-- The Go function `updateFileHashes`: the updated map and the warnings logged. -/
def updateFileHashes (sha256 : List Byte → List Byte) (fs : FileSystem) (config : Config)
    (hashes : GoMap) : GoMap × List Event :=
  updateLoop sha256 fs config.TargetFiles hashes

/-! ## Reload dispatch -/

/-- Reduce an integer to the range of a signed 64-bit integer. -/
def wrapInt64 (n : Int) : Int :=
  (n + 2 ^ 63) % 2 ^ 64 - 2 ^ 63

/-- The Go expression `time.Duration(seconds) * time.Second`, in nanoseconds. -/
def secondsDuration (seconds : Int) : Int :=
  wrapInt64 (seconds * 1000000000)

/-- The Go function `getPidByName`: the pid and a `nil` error, or `-1` and the error. -/
def getPidByName (os : OS) (executable : String) : Int × Option String :=
  match os.Processes with
  | (_, some err) => (-1, some ("Unable to retrieve process list: " ++ err))
  | (procs, none) =>
    match procs.find? (fun proc => proc.Executable = executable) with
    | some proc => (proc.Pid, none)
    | none => (-1, some ("Did not find process '" ++ executable ++ "'"))

/-- The Go function `reloadProcess`: the returned error and the side effects performed. -/
def reloadProcess (config : Config) (os : OS) : Option String × List Event :=
  let t0 := [Event.sleep (secondsDuration config.SleepBeforeReloadDuration), Event.listProcesses]
  match getPidByName os config.TargetProcess with
  | (_, some err) => (some err, t0)
  | (pid, none) =>
    let t1 := t0 ++ [Event.logSending config.ReloadSignal pid, Event.findProcess pid]
    match os.FindProcess pid with
    | some err => (some ("Unable to send signal to process: " ++ err), t1)
    | none =>
      let t2 := t1 ++ [Event.signal pid config.ReloadSignal]
      match os.Signal pid config.ReloadSignal with
      | some err => (some ("Unable to send signal to process: " ++ err), t2)
      | none => (none, t2)

/-! ## The main loop -/

/-- One execution of the body of `if oldHash != newHash` in `main`. -/
structure Dispatch where
  /-- The path reported as changed. -/
  path : String
  /-- The baseline fingerprint that was logged. -/
  oldHash : String
  /-- The fresh fingerprint that was logged. -/
  newHash : String
  /-- The error returned by `reloadProcess` (`none` is `nil`). -/
  err : Option String
  /-- The side effects of that call of `reloadProcess`. -/
  trace : List Event
  deriving DecidableEq

/-- The loop `for path, oldHash := range oldFileHashes` of `main`, visiting the keys in
the given order; `osAt path` is the operating system at the time `path` is handled. -/
def rangeLoop (config : Config) (osAt : String → OS) (newFileHashes : GoMap) :
    List String → GoMap → GoMap × List Dispatch
  | [], oldFileHashes => (oldFileHashes, [])
  | path :: rest, oldFileHashes =>
    let oldHash := mapGet oldFileHashes path
    let newHash := mapGet newFileHashes path
    if oldHash ≠ newHash then
      let r := reloadProcess config (osAt path)
      let next := rangeLoop config osAt newFileHashes rest (mapSet oldFileHashes path newHash)
      (next.1, ⟨path, oldHash, newHash, r.1, r.2⟩ :: next.2)
    else
      rangeLoop config osAt newFileHashes rest oldFileHashes

/-- The two maps of `main`. -/
structure State where
  oldFileHashes : GoMap
  newFileHashes : GoMap

/-- The surroundings of one iteration of the main loop. -/
structure Tick where
  /-- The file system read by the snapshot. -/
  fs : FileSystem
  /-- The order in which `range` yields the keys of `oldFileHashes`. -/
  order : List String
  /-- The operating system at the time each path is handled. -/
  osAt : String → OS

/-- What one iteration of the main loop did. -/
structure TickRecord where
  snapshotLog : List Event
  dispatches : List Dispatch
  sleep : Event

/-- One iteration of the endless `for` loop of `main`. -/
def tick (sha256 : List Byte → List Byte) (config : Config) (t : Tick) (s : State) :
    State × TickRecord :=
  let snap := updateFileHashes sha256 t.fs config s.newFileHashes
  let r := rangeLoop config t.osAt snap.1 t.order s.oldFileHashes
  (⟨r.1, snap.1⟩, ⟨snap.2, r.2, Event.sleep (secondsDuration config.SleepDuration)⟩)

/-- The state of `main` when it enters the loop: the baseline snapshot on the empty map. -/
def initState (sha256 : List Byte → List Byte) (config : Config) (fs0 : FileSystem) : State :=
  ⟨(updateFileHashes sha256 fs0 config []).1, []⟩

/-- The main loop run for the given iterations: the final state and one record per iteration. -/
def runTicks (sha256 : List Byte → List Byte) (config : Config) :
    List Tick → State → State × List TickRecord
  | [], s => (s, [])
  | t :: rest, s =>
    let r := tick sha256 config t s
    let next := runTicks sha256 config rest r.1
    (next.1, r.2 :: next.2)

/-- The states `main` can be in at the top of the loop. -/
inductive Reachable (sha256 : List Byte → List Byte) (config : Config) : State → Prop where
  | init (fs0 : FileSystem) : Reachable sha256 config (initState sha256 config fs0)
  | step (t : Tick) (s : State) (hs : Reachable sha256 config s)
      (horder : t.order.Perm (mapKeys s.oldFileHashes)) :
      Reachable sha256 config (tick sha256 config t s).1

/-! ## Configuration -/

/-- The process environment: `os.LookupEnv` as a function. -/
abbrev Env := String → Option String

/-- The Go function `stringFromEnv`. -/
def stringFromEnv (env : Env) (key : String) : String × Option String :=
  match env key with
  | none => ("", some ("Missing env variable '" ++ key ++ "'"))
  | some val => (val, none)

/-- The Go function `intFromEnvWithDefault`; `atoi` is `strconv.Atoi`. -/
def intFromEnvWithDefault (atoi : String → Int × Option String) (env : Env) (key : String)
    (fallback : Int) : Int × Option String :=
  match stringFromEnv env key with
  | (_, some _) => (fallback, none)
  | (val, none) =>
    match atoi val with
    | (valNumeric, some _) => (valNumeric, some ("Could not convert to integer: '" ++ val ++ "'"))
    | (valNumeric, none) => (valNumeric, none)

/-- The pieces of a character list between commas. -/
def splitComma : List Char → List (List Char)
  | [] => [[]]
  | c :: cs =>
    if c = ',' then [] :: splitComma cs
    else
      match splitComma cs with
      | [] => [[c]]
      | piece :: pieces => (c :: piece) :: pieces

/-- The Go call `strings.Split(s, ",")`. -/
def Split (s : String) : List String :=
  (splitComma s.data).map String.mk

/-- The Go function `getConfig`; `signalNum` is `unix.SignalNum`, `atoi` is `strconv.Atoi`. -/
def getConfig (signalNum : String → Int) (atoi : String → Int × Option String) (env : Env) :
    Config × Option String :=
  let cfg := Config.zero
  match stringFromEnv env "TARGET_FILES" with
  | (_, some err) => (cfg, some err)
  | (targetFiles, none) =>
    let cfg := { cfg with TargetFiles := Split targetFiles }
    match stringFromEnv env "RELOAD_SIGNAL" with
    | (_, some err) => (cfg, some err)
    | (reloadSignalName, none) =>
      let reloadSignal := signalNum reloadSignalName
      if reloadSignal = 0 then (cfg, some ("Unknown signal: " ++ reloadSignalName))
      else
        let cfg := { cfg with ReloadSignal := reloadSignal }
        match stringFromEnv env "TARGET_PROCESS" with
        | (_, some err) => (cfg, some err)
        | (targetProcess, none) =>
          let cfg := { cfg with TargetProcess := targetProcess }
          let cfg := { cfg with Verbose := match env "VERBOSE" with
                                            | some verbose => decide (verbose.utf8ByteSize > 0)
                                            | none => false }
          match intFromEnvWithDefault atoi env "SLEEP_DURATION" 1 with
          | (_, some err) => (cfg, some err)
          | (sleepDuration, none) =>
            let cfg := { cfg with SleepDuration := sleepDuration }
            match intFromEnvWithDefault atoi env "SLEEP_BEFORE_RELOAD_DURATION" 1 with
            | (_, some err) => (cfg, some err)
            | (sleepBeforeReloadDuration, none) =>
              ({ cfg with SleepBeforeReloadDuration := sleepBeforeReloadDuration }, none)

/-- How a run of `main` over finitely many loop iterations ends. -/
inductive Outcome where
  /-- The call `logger.Fatalln` at startup: the process exits before the loop. -/
  | fatal (err : String)
  /-- The loop was entered with this configuration and baseline and ran the iterations. -/
  | looping (config : Config) (baseline : State) (final : State) (records : List TickRecord)

/-- The Go function `main`, run for the given loop iterations.  The listing of the initial
hashes is pure logging and is not recorded. -/
def main (sha256 : List Byte → List Byte) (signalNum : String → Int)
    (atoi : String → Int × Option String) (env : Env) (fs0 : FileSystem) (ticks : List Tick) :
    Outcome :=
  match getConfig signalNum atoi env with
  | (_, some err) => Outcome.fatal err
  | (config, none) =>
    let s0 := initState sha256 config fs0
    let r := runTicks sha256 config ticks s0
    Outcome.looping config s0 r.1 r.2

/-! ## Auxiliary definitions for the proofs -/

/-- The record the loop body leaves for a changed path. -/
def dispatchOf (config : Config) (osAt : String → OS) (oldFileHashes newFileHashes : GoMap)
    (path : String) : Dispatch :=
  ⟨path, mapGet oldFileHashes path, mapGet newFileHashes path,
    (reloadProcess config (osAt path)).1, (reloadProcess config (osAt path)).2⟩

/-- The test `oldHash != newHash` of the loop body. -/
def changed (oldFileHashes newFileHashes : GoMap) (path : String) : Bool :=
  decide (mapGet oldFileHashes path ≠ mapGet newFileHashes path)

/-- The key sets of the two maps at the top of the loop. -/
def KeysOk (config : Config) (s : State) : Prop :=
  (mapKeys s.oldFileHashes).Nodup
    ∧ (∀ p, p ∈ mapKeys s.oldFileHashes ↔ p ∈ config.TargetFiles)
    ∧ (mapKeys s.newFileHashes).Nodup
    ∧ (∀ p, p ∈ mapKeys s.newFileHashes → p ∈ config.TargetFiles)

/-! ## Sample data for concrete evaluations -/

/-- A stand-in for SHA-256 with 32-byte output: the byte sum of the content, then 31 zeros. -/
def sampleDigest (bytes : List Byte) : List Byte :=
  bytes.foldl (fun acc b => acc + b) 0 :: List.replicate 31 0

/-- A configuration watching two files. -/
def sampleConfig : Config :=
  ⟨["a.conf", "b.conf"], "nginx", 1, 1, 1, false⟩

/-- Both watched files are empty. -/
def sampleFs0 : FileSystem :=
  fun _ => FileState.content []

/-- The file `a.conf` holds one byte, everything else is empty. -/
def sampleFsA : FileSystem :=
  fun path => if path = "a.conf" then FileState.content [1] else FileState.content []

/-- Both watched files hold one byte. -/
def sampleFsAB : FileSystem :=
  fun _ => FileState.content [1]

/-- The file `a.conf` is gone, everything else is empty. -/
def sampleFsGone : FileSystem :=
  fun path => if path = "a.conf" then FileState.openError "no such file" else FileState.content []

/-- An operating system in which `nginx` runs as process 7 and signals are delivered. -/
def sampleOS : OS :=
  ⟨([⟨1, "init"⟩, ⟨7, "nginx"⟩, ⟨9, "nginx"⟩], none), fun _ => none, fun _ _ => none⟩

/-- An operating system in which the target process does not run. -/
def sampleOSNoTarget : OS :=
  ⟨([⟨1, "init"⟩], none), fun _ => none, fun _ _ => none⟩

/-- A stand-in for `unix.SignalNum` that knows two signal names. -/
def sampleSignalNum (name : String) : Int :=
  if name = "SIGHUP" then 1 else if name = "SIGUSR1" then 10 else 0

/-- A stand-in for `strconv.Atoi` built on the decimal reader of the standard library. -/
def sampleAtoi (val : String) : Int × Option String :=
  match val.toInt? with
  | some n => (n, none)
  | none => (0, some "invalid syntax")

/-- An environment with the three required variables and no optional one. -/
def sampleEnv : Env :=
  fun key =>
    if key = "TARGET_FILES" then some "a.conf,b.conf"
    else if key = "RELOAD_SIGNAL" then some "SIGHUP"
    else if key = "TARGET_PROCESS" then some "nginx"
    else none

/-! ## Lemmas on maps -/

theorem mapGet_mapSet (m : GoMap) (k v k2 : String) :
    mapGet (mapSet m k v) k2 = if k2 = k then v else mapGet m k2 := by
  induction m with
  | nil =>
    by_cases h : k2 = k
    · simp [mapSet, mapGet, h]
    · have h2 : ¬ k = k2 := fun e => h e.symm
      simp [mapSet, mapGet, h, h2]
  | cons e rest ih =>
    obtain ⟨k1, v1⟩ := e
    by_cases h1 : k1 = k
    · subst h1
      by_cases h : k2 = k1
      · simp [mapSet, mapGet, h]
      · have h2 : ¬ k1 = k2 := fun e => h e.symm
        simp [mapSet, mapGet, h, h2]
    · by_cases h : k2 = k
      · subst h
        simp [mapSet, mapGet, h1, ih]
      · by_cases h3 : k1 = k2
        · subst h3
          simp [mapSet, mapGet, h1]
        · simp [mapSet, mapGet, h1, h3, ih, h]

theorem mapGet_mapSet_self (m : GoMap) (k v : String) : mapGet (mapSet m k v) k = v := by
  simp [mapGet_mapSet]

theorem mapGet_mapSet_ne (m : GoMap) (k v k2 : String) (h : k2 ≠ k) :
    mapGet (mapSet m k v) k2 = mapGet m k2 := by
  simp [mapGet_mapSet, h]

theorem mapKeys_mapSet_of_mem (m : GoMap) (k v : String) (h : k ∈ mapKeys m) :
    mapKeys (mapSet m k v) = mapKeys m := by
  induction m with
  | nil => simp [mapKeys] at h
  | cons e rest ih =>
    obtain ⟨k1, v1⟩ := e
    by_cases h1 : k1 = k
    · simp [mapSet, mapKeys, h1]
    · have hk : k ∈ mapKeys rest := by
        simp only [mapKeys, List.map_cons, List.mem_cons] at h
        rcases h with h | h
        · exact absurd h.symm h1
        · exact h
      have := ih hk
      simp only [mapKeys] at this
      simp [mapSet, mapKeys, h1, this]

theorem mapKeys_mapSet_of_not_mem (m : GoMap) (k v : String) (h : k ∉ mapKeys m) :
    mapKeys (mapSet m k v) = mapKeys m ++ [k] := by
  induction m with
  | nil => simp [mapSet, mapKeys]
  | cons e rest ih =>
    obtain ⟨k1, v1⟩ := e
    simp only [mapKeys, List.map_cons, List.mem_cons, not_or] at h
    have h1 : ¬ k1 = k := fun e => h.1 e.symm
    have := ih h.2
    simp only [mapKeys] at this
    simp [mapSet, mapKeys, h1, this]

theorem mem_mapKeys_mapSet (m : GoMap) (k v p : String) :
    p ∈ mapKeys (mapSet m k v) ↔ p ∈ mapKeys m ∨ p = k := by
  by_cases h : k ∈ mapKeys m
  · rw [mapKeys_mapSet_of_mem m k v h]
    constructor
    · exact Or.inl
    · rintro (hp | hp)
      · exact hp
      · exact hp ▸ h
  · rw [mapKeys_mapSet_of_not_mem m k v h]
    simp

theorem nodup_mapKeys_mapSet (m : GoMap) (k v : String) (h : (mapKeys m).Nodup) :
    (mapKeys (mapSet m k v)).Nodup := by
  by_cases hk : k ∈ mapKeys m
  · rw [mapKeys_mapSet_of_mem m k v hk]
    exact h
  · rw [mapKeys_mapSet_of_not_mem m k v hk]
    rw [List.nodup_append]
    refine ⟨h, List.nodup_singleton k, ?_⟩
    intro a ha hb
    simp only [List.mem_singleton] at hb
    exact hk (hb ▸ ha)

/-! ## Lemmas on fingerprints -/

theorem hexDigit_injective (a b : Nat) (ha : a < 16) (hb : b < 16)
    (h : hexDigit a = hexDigit b) : a = b := by
  have key : ∀ x : Fin 16, ∀ y : Fin 16, hexDigit x.val = hexDigit y.val → x = y := by decide
  have := key ⟨a, ha⟩ ⟨b, hb⟩ h
  exact congrArg Fin.val this

theorem hexChars_injective (a b : List Byte) (h : hexChars a = hexChars b) : a = b := by
  induction a generalizing b with
  | nil =>
    cases b with
    | nil => rfl
    | cons y ys => simp [hexChars] at h
  | cons x xs ih =>
    cases b with
    | nil => simp [hexChars] at h
    | cons y ys =>
      simp only [hexChars, List.cons.injEq] at h
      obtain ⟨h1, h2, h3⟩ := h
      have e1 := hexDigit_injective _ _ (by omega) (by omega) h1
      have e2 := hexDigit_injective _ _ (Nat.mod_lt _ (by decide)) (Nat.mod_lt _ (by decide)) h2
      have hxy : x = y := by
        apply Fin.ext
        omega
      rw [hxy, ih ys h3]

theorem EncodeToString_injective (a b : List Byte) (h : EncodeToString a = EncodeToString b) :
    a = b := by
  apply hexChars_injective
  exact congrArg String.data h

theorem EncodeToString_ne_empty (a : List Byte) (h : a ≠ []) : EncodeToString a ≠ "" := by
  cases a with
  | nil => exact absurd rfl h
  | cons x xs =>
    intro e
    have := congrArg String.data e
    simp [EncodeToString, hexChars] at this

theorem hashFile_fst_of_err (sha256 : List Byte → List Byte) (fs : FileSystem) (path : String)
    (h : (hashFile sha256 fs path).2 ≠ none) : (hashFile sha256 fs path).1 = "" := by
  unfold hashFile at *
  cases hfs : fs path <;> simp_all

theorem hashFile_of_observed_none (sha256 : List Byte → List Byte) (fs : FileSystem)
    (path : String) (h : (fs path).observed = none) : (hashFile sha256 fs path).1 = "" := by
  unfold hashFile
  cases hfs : fs path <;> simp_all [FileState.observed]

theorem hashFile_of_observed_some (sha256 : List Byte → List Byte) (fs : FileSystem)
    (path : String) (bytes : List Byte) (h : (fs path).observed = some bytes) :
    (hashFile sha256 fs path).1 = EncodeToString (sha256 bytes) := by
  unfold hashFile
  cases hfs : fs path <;> simp_all [FileState.observed]

theorem hashFile_congr (sha256 : List Byte → List Byte) (fs1 fs2 : FileSystem) (path : String)
    (h : (fs1 path).observed = (fs2 path).observed) :
    (hashFile sha256 fs1 path).1 = (hashFile sha256 fs2 path).1 := by
  cases hobs : (fs2 path).observed with
  | none =>
    rw [hashFile_of_observed_none sha256 fs2 path hobs,
      hashFile_of_observed_none sha256 fs1 path (h.trans hobs)]
  | some bytes =>
    rw [hashFile_of_observed_some sha256 fs2 path bytes hobs,
      hashFile_of_observed_some sha256 fs1 path bytes (h.trans hobs)]

/-! ## Lemmas on snapshots -/

theorem updateLoop_cons (sha256 : List Byte → List Byte) (fs : FileSystem) (path : String)
    (rest : List String) (m : GoMap) :
    (updateLoop sha256 fs (path :: rest) m).1
      = (updateLoop sha256 fs rest (mapSet m path (hashFile sha256 fs path).1)).1 := by
  have herr := hashFile_fst_of_err sha256 fs path
  rw [updateLoop]
  rcases hh : hashFile sha256 fs path with ⟨hash, _ | err⟩
  · simp
  · rw [hh] at herr
    have : hash = "" := herr (by simp)
    simp [this]

theorem mapGet_updateLoop (sha256 : List Byte → List Byte) (fs : FileSystem)
    (paths : List String) (m : GoMap) (p : String) :
    mapGet (updateLoop sha256 fs paths m).1 p
      = if p ∈ paths then (hashFile sha256 fs p).1 else mapGet m p := by
  induction paths generalizing m with
  | nil => simp [updateLoop]
  | cons q rest ih =>
    rw [updateLoop_cons, ih]
    by_cases h1 : p ∈ rest
    · simp [h1]
    · by_cases h2 : p = q
      · subst h2
        simp [h1, mapGet_mapSet_self]
      · simp [h1, h2, mapGet_mapSet_ne]

theorem mem_mapKeys_updateLoop (sha256 : List Byte → List Byte) (fs : FileSystem)
    (paths : List String) (m : GoMap) (p : String) :
    p ∈ mapKeys (updateLoop sha256 fs paths m).1 ↔ p ∈ mapKeys m ∨ p ∈ paths := by
  induction paths generalizing m with
  | nil => simp [updateLoop]
  | cons q rest ih =>
    rw [updateLoop_cons, ih, mem_mapKeys_mapSet]
    simp only [List.mem_cons]
    tauto

theorem nodup_mapKeys_updateLoop (sha256 : List Byte → List Byte) (fs : FileSystem)
    (paths : List String) (m : GoMap) (h : (mapKeys m).Nodup) :
    (mapKeys (updateLoop sha256 fs paths m).1).Nodup := by
  induction paths generalizing m with
  | nil => simpa [updateLoop] using h
  | cons q rest ih =>
    rw [updateLoop_cons]
    exact ih _ (nodup_mapKeys_mapSet m q _ h)

/-! ## Lemmas on the range loop -/

theorem rangeLoop_cons_changed (config : Config) (osAt : String → OS) (new old : GoMap)
    (q : String) (rest : List String) (h : mapGet old q ≠ mapGet new q) :
    rangeLoop config osAt new (q :: rest) old
      = ((rangeLoop config osAt new rest (mapSet old q (mapGet new q))).1,
          dispatchOf config osAt old new q
            :: (rangeLoop config osAt new rest (mapSet old q (mapGet new q))).2) := by
  rw [rangeLoop]
  simp [h, dispatchOf]

theorem rangeLoop_cons_same (config : Config) (osAt : String → OS) (new old : GoMap)
    (q : String) (rest : List String) (h : mapGet old q = mapGet new q) :
    rangeLoop config osAt new (q :: rest) old = rangeLoop config osAt new rest old := by
  rw [rangeLoop]
  simp [h]

theorem mapKeys_rangeLoop (config : Config) (osAt : String → OS) (new : GoMap)
    (order : List String) (old : GoMap) (h : ∀ p ∈ order, p ∈ mapKeys old) :
    mapKeys (rangeLoop config osAt new order old).1 = mapKeys old := by
  induction order generalizing old with
  | nil => simp [rangeLoop]
  | cons q rest ih =>
    have hq : q ∈ mapKeys old := h q (List.mem_cons_self q rest)
    by_cases hc : mapGet old q = mapGet new q
    · rw [rangeLoop_cons_same _ _ _ _ _ _ hc]
      exact ih old (fun p hp => h p (List.mem_cons_of_mem q hp))
    · rw [rangeLoop_cons_changed _ _ _ _ _ _ hc]
      simp only
      rw [ih, mapKeys_mapSet_of_mem old q _ hq]
      intro p hp
      rw [mapKeys_mapSet_of_mem old q _ hq]
      exact h p (List.mem_cons_of_mem q hp)

theorem mapGet_rangeLoop (config : Config) (osAt : String → OS) (new : GoMap)
    (order : List String) (old : GoMap) (p : String) :
    mapGet (rangeLoop config osAt new order old).1 p
      = if p ∈ order then mapGet new p else mapGet old p := by
  induction order generalizing old with
  | nil => simp [rangeLoop]
  | cons q rest ih =>
    by_cases hc : mapGet old q = mapGet new q
    · rw [rangeLoop_cons_same _ _ _ _ _ _ hc, ih]
      by_cases h1 : p ∈ rest
      · simp [h1]
      · by_cases h2 : p = q
        · subst h2
          simp [h1, hc]
        · simp [h1, h2]
    · rw [rangeLoop_cons_changed _ _ _ _ _ _ hc]
      simp only
      rw [ih]
      by_cases h1 : p ∈ rest
      · simp [h1]
      · by_cases h2 : p = q
        · subst h2
          simp [h1, mapGet_mapSet_self]
        · simp [h1, h2, mapGet_mapSet_ne]

theorem dispatches_rangeLoop (config : Config) (osAt : String → OS) (new : GoMap)
    (order : List String) (old : GoMap) (hnd : order.Nodup) :
    (rangeLoop config osAt new order old).2
      = (order.filter (changed old new)).map (dispatchOf config osAt old new) := by
  induction order generalizing old with
  | nil => simp [rangeLoop]
  | cons q rest ih =>
    have hq : q ∉ rest := (List.nodup_cons.mp hnd).1
    have hrest : rest.Nodup := (List.nodup_cons.mp hnd).2
    by_cases hc : mapGet old q = mapGet new q
    · rw [rangeLoop_cons_same _ _ _ _ _ _ hc, ih old hrest]
      simp [List.filter_cons, changed, hc]
    · rw [rangeLoop_cons_changed _ _ _ _ _ _ hc]
      simp only
      rw [ih _ hrest]
      have hf : rest.filter (changed (mapSet old q (mapGet new q)) new)
          = rest.filter (changed old new) := by
        apply List.filter_congr
        intro p hp
        have hpq : p ≠ q := fun e => hq (e ▸ hp)
        simp [changed, mapGet_mapSet_ne _ _ _ _ hpq]
      have hm : ∀ p ∈ rest.filter (changed old new),
          dispatchOf config osAt (mapSet old q (mapGet new q)) new p
            = dispatchOf config osAt old new p := by
        intro p hp
        have hp2 : p ∈ rest := (List.mem_filter.mp hp).1
        have hpq : p ≠ q := fun e => hq (e ▸ hp2)
        simp [dispatchOf, mapGet_mapSet_ne _ _ _ _ hpq]
      rw [hf, List.map_congr_left hm]
      simp [List.filter_cons, changed, hc]

/-! ## The invariant of the main loop -/

theorem keysOk_initState (sha256 : List Byte → List Byte) (config : Config) (fs0 : FileSystem) :
    KeysOk config (initState sha256 config fs0) := by
  refine ⟨?_, ?_, ?_, ?_⟩
  · exact nodup_mapKeys_updateLoop sha256 fs0 config.TargetFiles [] (by simp [mapKeys])
  · intro p
    show p ∈ mapKeys (updateLoop sha256 fs0 config.TargetFiles []).1 ↔ p ∈ config.TargetFiles
    rw [mem_mapKeys_updateLoop]
    simp [mapKeys]
  · simp [initState, mapKeys]
  · simp [initState, mapKeys]

theorem tick_old (sha256 : List Byte → List Byte) (config : Config) (t : Tick) (s : State) :
    (tick sha256 config t s).1.oldFileHashes
      = (rangeLoop config t.osAt (updateFileHashes sha256 t.fs config s.newFileHashes).1
          t.order s.oldFileHashes).1 := rfl

theorem tick_new (sha256 : List Byte → List Byte) (config : Config) (t : Tick) (s : State) :
    (tick sha256 config t s).1.newFileHashes
      = (updateFileHashes sha256 t.fs config s.newFileHashes).1 := rfl

theorem tick_dispatches (sha256 : List Byte → List Byte) (config : Config) (t : Tick)
    (s : State) :
    (tick sha256 config t s).2.dispatches
      = (rangeLoop config t.osAt (updateFileHashes sha256 t.fs config s.newFileHashes).1
          t.order s.oldFileHashes).2 := rfl

theorem mapKeys_tick_old (sha256 : List Byte → List Byte) (config : Config) (t : Tick)
    (s : State) (horder : t.order.Perm (mapKeys s.oldFileHashes)) :
    mapKeys (tick sha256 config t s).1.oldFileHashes = mapKeys s.oldFileHashes := by
  rw [tick_old]
  exact mapKeys_rangeLoop _ _ _ _ _ (fun p hp => horder.subset hp)

theorem keysOk_tick (sha256 : List Byte → List Byte) (config : Config) (t : Tick) (s : State)
    (hs : KeysOk config s) (horder : t.order.Perm (mapKeys s.oldFileHashes)) :
    KeysOk config (tick sha256 config t s).1 := by
  obtain ⟨h1, h2, h3, h4⟩ := hs
  refine ⟨?_, ?_, ?_, ?_⟩
  · rw [mapKeys_tick_old sha256 config t s horder]
    exact h1
  · rw [mapKeys_tick_old sha256 config t s horder]
    exact h2
  · rw [tick_new]
    exact nodup_mapKeys_updateLoop sha256 t.fs config.TargetFiles _ h3
  · intro p hp
    rw [tick_new, updateFileHashes, mem_mapKeys_updateLoop] at hp
    rcases hp with hp | hp
    · exact h4 p hp
    · exact hp

theorem keysOk_of_reachable (sha256 : List Byte → List Byte) (config : Config) (s : State)
    (hs : Reachable sha256 config s) : KeysOk config s := by
  induction hs with
  | init fs0 => exact keysOk_initState sha256 config fs0
  | step t s _ horder ih => exact keysOk_tick sha256 config t s ih horder

/-- The snapshot of a tick holds the fresh fingerprint of every watched path. -/
theorem mapGet_tick_new (sha256 : List Byte → List Byte) (config : Config) (t : Tick)
    (s : State) (p : String) (hp : p ∈ config.TargetFiles) :
    mapGet (tick sha256 config t s).1.newFileHashes p = (hashFile sha256 t.fs p).1 := by
  rw [tick_new, updateFileHashes, mapGet_updateLoop]
  simp [hp]

/-- The key set of the snapshot of a tick is the set of watched paths. -/
theorem mem_mapKeys_tick_new (sha256 : List Byte → List Byte) (config : Config) (t : Tick)
    (s : State) (hs : KeysOk config s) (p : String) :
    p ∈ mapKeys (tick sha256 config t s).1.newFileHashes ↔ p ∈ config.TargetFiles := by
  rw [tick_new, updateFileHashes, mem_mapKeys_updateLoop]
  constructor
  · rintro (h | h)
    · exact hs.2.2.2 p h
    · exact h
  · exact Or.inr

/-- After a tick the baseline of every watched path is its fresh fingerprint. -/
theorem mapGet_tick_old (sha256 : List Byte → List Byte) (config : Config) (t : Tick)
    (s : State) (hs : KeysOk config s) (horder : t.order.Perm (mapKeys s.oldFileHashes))
    (p : String) (hp : p ∈ config.TargetFiles) :
    mapGet (tick sha256 config t s).1.oldFileHashes p = (hashFile sha256 t.fs p).1 := by
  have hmem : p ∈ t.order := horder.symm.subset ((hs.2.1 p).mpr hp)
  rw [tick_old, mapGet_rangeLoop]
  simp only [hmem, if_true]
  exact mapGet_tick_new sha256 config t s p hp

/-- The dispatches of a tick, in closed form. -/
theorem dispatches_tick (sha256 : List Byte → List Byte) (config : Config) (t : Tick)
    (s : State) (hs : KeysOk config s) (horder : t.order.Perm (mapKeys s.oldFileHashes)) :
    (tick sha256 config t s).2.dispatches
      = (t.order.filter (changed s.oldFileHashes (tick sha256 config t s).1.newFileHashes)).map
          (dispatchOf config t.osAt s.oldFileHashes (tick sha256 config t s).1.newFileHashes) := by
  rw [tick_dispatches, tick_new]
  exact dispatches_rangeLoop _ _ _ _ _ (horder.nodup_iff.mpr hs.1)

/-- Running further iterations with legal range orders stays among the reachable states. -/
theorem reachable_runTicks (sha256 : List Byte → List Byte) (config : Config)
    (ticks : List Tick) (s : State) (hs : Reachable sha256 config s)
    (horders : ∀ u ∈ ticks, u.order.Perm (mapKeys s.oldFileHashes)) :
    Reachable sha256 config (runTicks sha256 config ticks s).1 := by
  induction ticks generalizing s with
  | nil => exact hs
  | cons t rest ih =>
    have horder := horders t (List.mem_cons_self t rest)
    have hkeys := mapKeys_tick_old sha256 config t s horder
    exact ih (tick sha256 config t s).1 (Reachable.step t s hs horder)
      (fun u hu => by rw [hkeys]; exact horders u (List.mem_cons_of_mem t hu))

/-- With a valid configuration `main` enters the loop from the baseline snapshot; with an
invalid one it ends at startup. -/
theorem main_outcome (sha256 : List Byte → List Byte) (signalNum : String → Int)
    (atoi : String → Int × Option String) (env : Env) (fs0 : FileSystem) (ticks : List Tick) :
    main sha256 signalNum atoi env fs0 ticks
      = match (getConfig signalNum atoi env).2 with
        | some err => Outcome.fatal err
        | none =>
          Outcome.looping (getConfig signalNum atoi env).1
            (initState sha256 (getConfig signalNum atoi env).1 fs0)
            (runTicks sha256 (getConfig signalNum atoi env).1 ticks
              (initState sha256 (getConfig signalNum atoi env).1 fs0)).1
            (runTicks sha256 (getConfig signalNum atoi env).1 ticks
              (initState sha256 (getConfig signalNum atoi env).1 fs0)).2 := by
  unfold main
  rcases h : getConfig signalNum atoi env with ⟨config, _ | err⟩ <;> simp

/-! ## Claims about change detection -/

/-- C1: a watched path whose observed file state (content, or being unreadable) is the same
in the current snapshot as when its baseline was recorded causes no call of `reloadProcess`
in this iteration of the main loop, and its entry in `oldFileHashes` keeps its value. -/
theorem unchanged_path_not_dispatched (sha256 : List Byte → List Byte) (config : Config)
    (s : State) (t : Tick) (fsBase : FileSystem) (path : String)
    (hs : Reachable sha256 config s)
    (horder : t.order.Perm (mapKeys s.oldFileHashes))
    (hpath : path ∈ config.TargetFiles)
    (hbase : mapGet s.oldFileHashes path = (hashFile sha256 fsBase path).1)
    (hsame : (t.fs path).observed = (fsBase path).observed) :
    (∀ d ∈ (tick sha256 config t s).2.dispatches, d.path ≠ path)
      ∧ mapGet (tick sha256 config t s).1.oldFileHashes path = mapGet s.oldFileHashes path := by
  have hk := keysOk_of_reachable sha256 config s hs
  have hnew := mapGet_tick_new sha256 config t s path hpath
  have heq : mapGet s.oldFileHashes path
      = mapGet (tick sha256 config t s).1.newFileHashes path := by
    rw [hnew, hbase]
    exact (hashFile_congr sha256 t.fs fsBase path hsame).symm
  constructor
  · intro d hd hdp
    rw [dispatches_tick sha256 config t s hk horder, List.mem_map] at hd
    obtain ⟨p, hp, rfl⟩ := hd
    have hpp : p = path := hdp
    have hc := (List.mem_filter.mp hp).2
    rw [hpp] at hc
    simp [changed, heq] at hc
  · rw [mapGet_tick_old sha256 config t s hk horder path hpath, hbase]
    exact hashFile_congr sha256 t.fs fsBase path hsame

/-- Witness for C1: `b.conf` is empty at the baseline and in the snapshot. -/
theorem unchanged_path_not_dispatched_witness :
    (∀ d ∈ (tick sampleDigest sampleConfig ⟨sampleFsA, ["b.conf", "a.conf"], fun _ => sampleOS⟩
        (initState sampleDigest sampleConfig sampleFs0)).2.dispatches, d.path ≠ "b.conf")
      ∧ mapGet (tick sampleDigest sampleConfig ⟨sampleFsA, ["b.conf", "a.conf"], fun _ => sampleOS⟩
          (initState sampleDigest sampleConfig sampleFs0)).1.oldFileHashes "b.conf"
        = mapGet (initState sampleDigest sampleConfig sampleFs0).oldFileHashes "b.conf" :=
  unchanged_path_not_dispatched sampleDigest sampleConfig
    (initState sampleDigest sampleConfig sampleFs0)
    ⟨sampleFsA, ["b.conf", "a.conf"], fun _ => sampleOS⟩ sampleFs0 "b.conf"
    (Reachable.init sampleFs0) (by decide) (by decide) (by decide) (by decide)

/-- C2: a watched path that was readable when its baseline was recorded (content `c0`) and is
readable in the current snapshot with a different content `c1` makes the comparison
`oldHash != newHash` true, provided the digest does not collide on `c0` and `c1`; the path
is reported as changed and `reloadProcess` is called for it. -/
theorem changed_content_dispatched (sha256 : List Byte → List Byte) (config : Config)
    (s : State) (t : Tick) (fsBase : FileSystem) (path : String) (c0 c1 : List Byte)
    (hs : Reachable sha256 config s)
    (horder : t.order.Perm (mapKeys s.oldFileHashes))
    (hpath : path ∈ config.TargetFiles)
    (hbase : mapGet s.oldFileHashes path = (hashFile sha256 fsBase path).1)
    (hold : (fsBase path).observed = some c0)
    (hnow : (t.fs path).observed = some c1)
    (hdiff : c0 ≠ c1)
    (hcollision : sha256 c0 = sha256 c1 → c0 = c1) :
    mapGet s.oldFileHashes path ≠ mapGet (tick sha256 config t s).1.newFileHashes path
      ∧ ∃ d ∈ (tick sha256 config t s).2.dispatches,
          d.path = path ∧ d.oldHash = EncodeToString (sha256 c0)
            ∧ d.newHash = EncodeToString (sha256 c1)
            ∧ d.err = (reloadProcess config (t.osAt path)).1 := by
  have hk := keysOk_of_reachable sha256 config s hs
  have hnew : mapGet (tick sha256 config t s).1.newFileHashes path
      = EncodeToString (sha256 c1) := by
    rw [mapGet_tick_new sha256 config t s path hpath]
    exact hashFile_of_observed_some sha256 t.fs path c1 hnow
  have hold2 : mapGet s.oldFileHashes path = EncodeToString (sha256 c0) := by
    rw [hbase]
    exact hashFile_of_observed_some sha256 fsBase path c0 hold
  have hne : mapGet s.oldFileHashes path
      ≠ mapGet (tick sha256 config t s).1.newFileHashes path := by
    rw [hnew, hold2]
    intro e
    exact hdiff (hcollision (EncodeToString_injective _ _ e))
  refine ⟨hne, ?_⟩
  have hmem : path ∈ t.order := horder.symm.subset ((hk.2.1 path).mpr hpath)
  refine ⟨dispatchOf config t.osAt s.oldFileHashes
    (tick sha256 config t s).1.newFileHashes path, ?_, rfl, hold2, hnew, rfl⟩
  rw [dispatches_tick sha256 config t s hk horder]
  apply List.mem_map_of_mem
  exact List.mem_filter.mpr ⟨hmem, by simp [changed, hne]⟩

/-- Witness for C2: `a.conf` goes from empty to one byte. -/
theorem changed_content_dispatched_witness :
    mapGet (initState sampleDigest sampleConfig sampleFs0).oldFileHashes "a.conf"
        ≠ mapGet (tick sampleDigest sampleConfig
            ⟨sampleFsA, ["b.conf", "a.conf"], fun _ => sampleOS⟩
            (initState sampleDigest sampleConfig sampleFs0)).1.newFileHashes "a.conf"
      ∧ ∃ d ∈ (tick sampleDigest sampleConfig
            ⟨sampleFsA, ["b.conf", "a.conf"], fun _ => sampleOS⟩
            (initState sampleDigest sampleConfig sampleFs0)).2.dispatches,
          d.path = "a.conf" ∧ d.oldHash = EncodeToString (sampleDigest [])
            ∧ d.newHash = EncodeToString (sampleDigest [1])
            ∧ d.err = (reloadProcess sampleConfig sampleOS).1 :=
  changed_content_dispatched sampleDigest sampleConfig
    (initState sampleDigest sampleConfig sampleFs0)
    ⟨sampleFsA, ["b.conf", "a.conf"], fun _ => sampleOS⟩ sampleFs0 "a.conf" [] [1]
    (Reachable.init sampleFs0) (by decide) (by decide) (by decide) (by decide) (by decide)
    (by decide) (by decide)

/-- C3: for every path reported as changed in an iteration of the main loop, the baseline
entry afterwards equals the fingerprint observed in that iteration and differs from the old
baseline, whatever `reloadProcess` returned; the loop body alone already leaves the entry
updated, and the loop goes on with the next iteration from the updated state. -/
theorem baseline_updated_after_dispatch (sha256 : List Byte → List Byte) (config : Config)
    (s : State) (t : Tick) (rest : List Tick) (d : Dispatch)
    (hs : Reachable sha256 config s)
    (horder : t.order.Perm (mapKeys s.oldFileHashes))
    (hd : d ∈ (tick sha256 config t s).2.dispatches) :
    d.err = (reloadProcess config (t.osAt d.path)).1
      ∧ d.newHash = mapGet (tick sha256 config t s).1.newFileHashes d.path
      ∧ d.oldHash = mapGet s.oldFileHashes d.path
      ∧ mapGet (rangeLoop config t.osAt (tick sha256 config t s).1.newFileHashes [d.path]
          s.oldFileHashes).1 d.path = d.newHash
      ∧ mapGet (tick sha256 config t s).1.oldFileHashes d.path = d.newHash
      ∧ mapGet (tick sha256 config t s).1.oldFileHashes d.path ≠ d.oldHash
      ∧ (runTicks sha256 config (t :: rest) s).2
          = (tick sha256 config t s).2
            :: (runTicks sha256 config rest (tick sha256 config t s).1).2 := by
  have hk := keysOk_of_reachable sha256 config s hs
  rw [dispatches_tick sha256 config t s hk horder, List.mem_map] at hd
  obtain ⟨p, hp, rfl⟩ := hd
  have hmem : p ∈ t.order := (List.mem_filter.mp hp).1
  have hc : mapGet s.oldFileHashes p ≠ mapGet (tick sha256 config t s).1.newFileHashes p := by
    simpa [changed] using (List.mem_filter.mp hp).2
  have hfinal : mapGet (tick sha256 config t s).1.oldFileHashes p
      = mapGet (tick sha256 config t s).1.newFileHashes p := by
    rw [tick_old, mapGet_rangeLoop]
    simp only [hmem, if_true]
    rfl
  refine ⟨rfl, rfl, rfl, ?_, hfinal, ?_, rfl⟩
  · rw [mapGet_rangeLoop]
    simp [dispatchOf]
  · show mapGet (tick sha256 config t s).1.oldFileHashes p ≠ mapGet s.oldFileHashes p
    rw [hfinal]
    exact fun e => hc e.symm

/-- Witness for C3: `a.conf` changed while the target process does not run, so the dispatch
fails and the baseline still advances. -/
theorem baseline_updated_after_dispatch_witness :
    (reloadProcess sampleConfig sampleOSNoTarget).1 = some "Did not find process \x27nginx\x27"
      ∧ mapGet (tick sampleDigest sampleConfig
          ⟨sampleFsA, ["b.conf", "a.conf"], fun _ => sampleOSNoTarget⟩
          (initState sampleDigest sampleConfig sampleFs0)).1.oldFileHashes "a.conf"
        = EncodeToString (sampleDigest [1]) :=
  ⟨by decide,
    (baseline_updated_after_dispatch sampleDigest sampleConfig
      (initState sampleDigest sampleConfig sampleFs0)
      ⟨sampleFsA, ["b.conf", "a.conf"], fun _ => sampleOSNoTarget⟩ []
      ⟨"a.conf", EncodeToString (sampleDigest []), EncodeToString (sampleDigest [1]),
        some "Did not find process \x27nginx\x27",
        [Event.sleep 1000000000, Event.listProcesses]⟩
      (Reachable.init sampleFs0) (by decide) (by decide)).2.2.2.2.1⟩

/-- C4: the number of calls of `reloadProcess` in one iteration of the main loop is the
number of distinct watched paths whose fresh fingerprint differs from the baseline at the
start of the iteration, each such path being handled once; none when no fingerprint differs
and exactly one when exactly one watched path differs. -/
theorem dispatch_count (sha256 : List Byte → List Byte) (config : Config)
    (s : State) (t : Tick)
    (hs : Reachable sha256 config s)
    (horder : t.order.Perm (mapKeys s.oldFileHashes)) :
    (tick sha256 config t s).2.dispatches.length
        = (config.TargetFiles.toFinset.filter
            (fun p => mapGet s.oldFileHashes p ≠ (hashFile sha256 t.fs p).1)).card
      ∧ ((tick sha256 config t s).2.dispatches.map Dispatch.path).Nodup
      ∧ ((∀ p ∈ config.TargetFiles, mapGet s.oldFileHashes p = (hashFile sha256 t.fs p).1)
          → (tick sha256 config t s).2.dispatches = [])
      ∧ (∀ q ∈ config.TargetFiles, mapGet s.oldFileHashes q ≠ (hashFile sha256 t.fs q).1
          → (∀ p ∈ config.TargetFiles, p ≠ q
              → mapGet s.oldFileHashes p = (hashFile sha256 t.fs p).1)
          → ∃ d, (tick sha256 config t s).2.dispatches = [d] ∧ d.path = q) := by
  have hk := keysOk_of_reachable sha256 config s hs
  have hnd : t.order.Nodup := horder.nodup_iff.mpr hk.1
  have hmem : ∀ p, p ∈ t.order ↔ p ∈ config.TargetFiles := fun p =>
    (horder.mem_iff).trans (hk.2.1 p)
  have hch : ∀ p ∈ t.order,
      (changed s.oldFileHashes (tick sha256 config t s).1.newFileHashes p = true
        ↔ mapGet s.oldFileHashes p ≠ (hashFile sha256 t.fs p).1) := by
    intro p hp
    simp [changed, mapGet_tick_new sha256 config t s p ((hmem p).mp hp)]
  have hpaths : (tick sha256 config t s).2.dispatches.map Dispatch.path
      = t.order.filter (changed s.oldFileHashes (tick sha256 config t s).1.newFileHashes) := by
    rw [dispatches_tick sha256 config t s hk horder, List.map_map]
    have : (Dispatch.path ∘ dispatchOf config t.osAt s.oldFileHashes
        (tick sha256 config t s).1.newFileHashes) = id := by
      funext p
      rfl
    rw [this, List.map_id]
  have hlen : (tick sha256 config t s).2.dispatches.length
      = ((tick sha256 config t s).2.dispatches.map Dispatch.path).length := by simp
  have hfnd := hnd.filter (changed s.oldFileHashes (tick sha256 config t s).1.newFileHashes)
  have hcard : (tick sha256 config t s).2.dispatches.length
      = (config.TargetFiles.toFinset.filter
          (fun p => mapGet s.oldFileHashes p ≠ (hashFile sha256 t.fs p).1)).card := by
    rw [hlen, hpaths, ← List.toFinset_card_of_nodup hfnd]
    congr 1
    ext p
    simp only [List.mem_toFinset, List.mem_filter, Finset.mem_filter]
    constructor
    · rintro ⟨h1, h2⟩
      exact ⟨(hmem p).mp h1, (hch p h1).mp h2⟩
    · rintro ⟨h1, h2⟩
      exact ⟨(hmem p).mpr h1, (hch p ((hmem p).mpr h1)).mpr h2⟩
  refine ⟨hcard, ?_, ?_, ?_⟩
  · rw [hpaths]
    exact hfnd
  · intro hall
    have h0 : (tick sha256 config t s).2.dispatches.length = 0 := by
      rw [hcard, Finset.card_eq_zero, Finset.filter_eq_empty_iff]
      intro p hp
      simpa using hall p (List.mem_toFinset.mp hp)
    exact List.length_eq_zero.mp h0
  · intro q hq hqne hothers
    have h1 : (tick sha256 config t s).2.dispatches.length = 1 := by
      rw [hcard, Finset.card_eq_one]
      refine ⟨q, ?_⟩
      ext p
      simp only [Finset.mem_filter, List.mem_toFinset, Finset.mem_singleton]
      constructor
      · rintro ⟨hp, hpne⟩
        by_contra hpq
        exact hpne (hothers p hp hpq)
      · rintro rfl
        exact ⟨hq, hqne⟩
    obtain ⟨d, hd⟩ := List.length_eq_one.mp h1
    refine ⟨d, hd, ?_⟩
    have hdm : d.path ∈ (tick sha256 config t s).2.dispatches.map Dispatch.path := by
      rw [hd]
      simp
    rw [hpaths] at hdm
    have hd1 := (List.mem_filter.mp hdm).1
    have hd2 := (hch d.path hd1).mp (List.mem_filter.mp hdm).2
    by_contra hne
    exact hd2 (hothers d.path ((hmem d.path).mp hd1) hne)

/-- Witness for C4: the watch list names `a.conf` twice; after it changed there is one
dispatch. -/
theorem dispatch_count_witness :
    (tick sampleDigest ⟨["a.conf", "b.conf", "a.conf"], "nginx", 1, 1, 1, false⟩
        ⟨sampleFsA, ["b.conf", "a.conf"], fun _ => sampleOS⟩
        (initState sampleDigest ⟨["a.conf", "b.conf", "a.conf"], "nginx", 1, 1, 1, false⟩
          sampleFs0)).2.dispatches.length
      = ((["a.conf", "b.conf", "a.conf"] : List String).toFinset.filter
          (fun p => mapGet (initState sampleDigest
              ⟨["a.conf", "b.conf", "a.conf"], "nginx", 1, 1, 1, false⟩
              sampleFs0).oldFileHashes p ≠ (hashFile sampleDigest sampleFsA p).1)).card :=
  (dispatch_count sampleDigest ⟨["a.conf", "b.conf", "a.conf"], "nginx", 1, 1, 1, false⟩
    (initState sampleDigest ⟨["a.conf", "b.conf", "a.conf"], "nginx", 1, 1, 1, false⟩ sampleFs0)
    ⟨sampleFsA, ["b.conf", "a.conf"], fun _ => sampleOS⟩
    (Reachable.init sampleFs0) (by decide)).1

/-- The paths dispatched in one iteration are the changed keys in the order of the range. -/
theorem dispatch_paths_tick (sha256 : List Byte → List Byte) (config : Config) (t : Tick)
    (s : State) (hs : KeysOk config s) (horder : t.order.Perm (mapKeys s.oldFileHashes)) :
    (tick sha256 config t s).2.dispatches.map Dispatch.path
      = t.order.filter
          (fun p => decide (mapGet s.oldFileHashes p ≠ (hashFile sha256 t.fs p).1)) := by
  rw [dispatches_tick sha256 config t s hs horder, List.map_map]
  have hid : (Dispatch.path ∘ dispatchOf config t.osAt s.oldFileHashes
      (tick sha256 config t s).1.newFileHashes) = id := by
    funext p
    rfl
  rw [hid, List.map_id]
  apply List.filter_congr
  intro p hp
  have hp2 : p ∈ config.TargetFiles := (hs.2.1 p).mp (horder.subset hp)
  simp [changed, mapGet_tick_new sha256 config t s p hp2]

/-! ## Claims about the order of dispatches -/

/-- C5, as stated, fails: the watch list is `a.conf`, `b.conf`, both files change in the same
iteration, the range over the map yields `b.conf` first (a legal order), and the dispatches
happen for `b.conf` and then for `a.conf`, which is not the order of the watch list. -/
theorem dispatch_order_counterexample :
    sampleConfig.TargetFiles = ["a.conf", "b.conf"]
      ∧ List.Perm ["b.conf", "a.conf"]
          (mapKeys (initState sampleDigest sampleConfig sampleFs0).oldFileHashes)
      ∧ (tick sampleDigest sampleConfig ⟨sampleFsAB, ["b.conf", "a.conf"], fun _ => sampleOS⟩
          (initState sampleDigest sampleConfig sampleFs0)).2.dispatches.map Dispatch.path
        = ["b.conf", "a.conf"]
      ∧ ¬ List.Sublist ["b.conf", "a.conf"] sampleConfig.TargetFiles := by
  refine ⟨rfl, by decide, by decide, by decide⟩

/-- C5, amended: the paths that changed in one iteration are reported and dispatched one
after the other in the order in which the range over `oldFileHashes` yields them; the
dispatched paths are a rearrangement of the distinct changed paths of the watch list. -/
theorem dispatch_order_is_range_order (sha256 : List Byte → List Byte) (config : Config)
    (s : State) (t : Tick)
    (hs : Reachable sha256 config s)
    (horder : t.order.Perm (mapKeys s.oldFileHashes)) :
    (tick sha256 config t s).2.dispatches.map Dispatch.path
        = t.order.filter
            (fun p => decide (mapGet s.oldFileHashes p ≠ (hashFile sha256 t.fs p).1))
      ∧ ((tick sha256 config t s).2.dispatches.map Dispatch.path).Sublist t.order
      ∧ ((tick sha256 config t s).2.dispatches.map Dispatch.path).Perm
          (config.TargetFiles.dedup.filter
            (fun p => decide (mapGet s.oldFileHashes p ≠ (hashFile sha256 t.fs p).1))) := by
  have hk := keysOk_of_reachable sha256 config s hs
  have hpaths := dispatch_paths_tick sha256 config t s hk horder
  have hnd : t.order.Nodup := horder.nodup_iff.mpr hk.1
  refine ⟨hpaths, ?_, ?_⟩
  · rw [hpaths]
    exact List.filter_sublist _
  · rw [hpaths]
    apply List.Perm.filter
    apply (List.perm_ext_iff_of_nodup hnd (List.nodup_dedup _)).mpr
    intro p
    rw [List.mem_dedup]
    exact (horder.mem_iff).trans (hk.2.1 p)

/-- Witness for the amended C5: both files changed and the range yields `b.conf` first. -/
theorem dispatch_order_is_range_order_witness :
    (tick sampleDigest sampleConfig ⟨sampleFsAB, ["b.conf", "a.conf"], fun _ => sampleOS⟩
        (initState sampleDigest sampleConfig sampleFs0)).2.dispatches.map Dispatch.path
      = (["b.conf", "a.conf"] : List String).filter
          (fun p => decide (mapGet (initState sampleDigest sampleConfig sampleFs0).oldFileHashes p
            ≠ (hashFile sampleDigest sampleFsAB p).1)) :=
  (dispatch_order_is_range_order sampleDigest sampleConfig
    (initState sampleDigest sampleConfig sampleFs0)
    ⟨sampleFsAB, ["b.conf", "a.conf"], fun _ => sampleOS⟩
    (Reachable.init sampleFs0) (by decide)).1

/-! ## Claims about process lookup -/

theorem find_first_match (executable : String) (procs : List Process)
    (h : ∃ p ∈ procs, p.Executable = executable) :
    ∃ before proc after, procs = before ++ proc :: after
      ∧ (∀ q ∈ before, q.Executable ≠ executable)
      ∧ proc.Executable = executable
      ∧ procs.find? (fun proc => proc.Executable = executable) = some proc := by
  induction procs with
  | nil =>
    obtain ⟨p, hp, _⟩ := h
    simp at hp
  | cons x xs ih =>
    by_cases hx : x.Executable = executable
    · exact ⟨[], x, xs, rfl, by simp, hx, by simp [hx]⟩
    · have h2 : ∃ p ∈ xs, p.Executable = executable := by
        obtain ⟨p, hp, hpe⟩ := h
        rcases List.mem_cons.mp hp with rfl | hp
        · exact absurd hpe hx
        · exact ⟨p, hp, hpe⟩
      obtain ⟨before, proc, after, e, hb, hpe, hf⟩ := ih h2
      refine ⟨x :: before, proc, after, by simp [e], ?_, hpe, by simp [hx, hf]⟩
      intro q hq
      rcases List.mem_cons.mp hq with rfl | hq
      · exact hx
      · exact hb q hq

theorem find_none_iff (executable : String) (procs : List Process) :
    procs.find? (fun proc => proc.Executable = executable) = none
      ↔ ∀ p ∈ procs, p.Executable ≠ executable := by
  induction procs with
  | nil => simp
  | cons x xs ih =>
    by_cases hx : x.Executable = executable
    · simp [hx]
    · simp [hx, ih]

/-- C6, as stated, fails: when the process list names `nginx` with pid 5 before `nginx` with
pid 3, `getPidByName` returns 5, which is not the smallest pid with that name. -/
theorem getPidByName_smallest_counterexample :
    getPidByName ⟨([⟨5, "nginx"⟩, ⟨3, "nginx"⟩], none), fun _ => none, fun _ _ => none⟩ "nginx"
        = (5, none)
      ∧ (⟨3, "nginx"⟩ : Process) ∈ [(⟨5, "nginx"⟩ : Process), ⟨3, "nginx"⟩]
      ∧ (3 : Int) < 5 := by
  refine ⟨by decide, by decide, by decide⟩

/-- C6, amended: when some listed process has the requested name, `getPidByName` returns
without error the pid of the first process of the list with that name; when the list is in
ascending pid order, as the code assumes of the enumeration, that pid is the smallest among
the listed processes with that name. -/
theorem getPidByName_first_match (os : OS) (procs : List Process) (executable : String)
    (hlist : os.Processes = (procs, none))
    (hsome : ∃ p ∈ procs, p.Executable = executable) :
    ∃ before proc after, procs = before ++ proc :: after
      ∧ (∀ q ∈ before, q.Executable ≠ executable)
      ∧ proc.Executable = executable
      ∧ getPidByName os executable = (proc.Pid, none)
      ∧ (procs.Pairwise (fun a b => a.Pid ≤ b.Pid)
          → ∀ q ∈ procs, q.Executable = executable → proc.Pid ≤ q.Pid) := by
  obtain ⟨before, proc, after, e, hb, hpe, hf⟩ := find_first_match executable procs hsome
  refine ⟨before, proc, after, e, hb, hpe, ?_, ?_⟩
  · unfold getPidByName
    rw [hlist]
    simp only [hf]
  · intro hsorted q hq hqe
    rw [e] at hsorted hq
    have htail := (List.pairwise_append.mp hsorted).2.1
    rcases List.mem_append.mp hq with hq | hq
    · exact absurd hqe (hb q hq)
    · rcases List.mem_cons.mp hq with rfl | hq
      · exact le_refl _
      · exact (List.pairwise_cons.mp htail).1 q hq

/-- Witness for the amended C6: of two `nginx` processes listed in pid order, 7 is found. -/
theorem getPidByName_first_match_witness :
    ∃ before proc after, sampleOS.Processes.1 = before ++ proc :: after
      ∧ (∀ q ∈ before, q.Executable ≠ "nginx")
      ∧ proc.Executable = "nginx"
      ∧ getPidByName sampleOS "nginx" = (proc.Pid, none)
      ∧ (sampleOS.Processes.1.Pairwise (fun a b => a.Pid ≤ b.Pid)
          → ∀ q ∈ sampleOS.Processes.1, q.Executable = "nginx" → proc.Pid ≤ q.Pid) :=
  getPidByName_first_match sampleOS sampleOS.Processes.1 "nginx" rfl
    ⟨⟨7, "nginx"⟩, by decide, rfl⟩

/-- C7: when the process enumeration succeeds, `getPidByName` returns an error exactly when no
listed process has the requested name, and the pid is then -1; `reloadProcess` then returns
that same error and neither looks up a process handle nor delivers a signal. -/
theorem getPidByName_error_iff (config : Config) (os : OS) (procs : List Process)
    (hlist : os.Processes = (procs, none)) :
    (∀ executable, ((getPidByName os executable).2 ≠ none
        ↔ ∀ p ∈ procs, p.Executable ≠ executable))
      ∧ (∀ executable, (getPidByName os executable).2 ≠ none
          → (getPidByName os executable).1 = -1)
      ∧ ((getPidByName os config.TargetProcess).2 ≠ none
          → (reloadProcess config os).1 = (getPidByName os config.TargetProcess).2
            ∧ ∀ e ∈ (reloadProcess config os).2,
                (∀ pid sig, e ≠ Event.signal pid sig) ∧ (∀ pid, e ≠ Event.findProcess pid)) := by
  have hget : ∀ executable,
      (procs.find? (fun proc => proc.Executable = executable) = none
          → getPidByName os executable
            = (-1, some ("Did not find process \x27" ++ executable ++ "\x27")))
        ∧ (∀ proc, procs.find? (fun proc => proc.Executable = executable) = some proc
          → getPidByName os executable = (proc.Pid, none)) := by
    intro executable
    constructor
    · intro hf
      unfold getPidByName
      rw [hlist]
      simp only [hf]
    · intro proc hf
      unfold getPidByName
      rw [hlist]
      simp only [hf]
  refine ⟨?_, ?_, ?_⟩
  · intro executable
    rw [← find_none_iff]
    cases hf : procs.find? (fun proc => proc.Executable = executable) with
    | none => simp [(hget executable).1 hf]
    | some proc => simp [(hget executable).2 proc hf]
  · intro executable
    cases hf : procs.find? (fun proc => proc.Executable = executable) with
    | none => simp [(hget executable).1 hf]
    | some proc => simp [(hget executable).2 proc hf]
  · cases hf : procs.find? (fun proc => proc.Executable = config.TargetProcess) with
    | none =>
      intro _
      have hg := (hget config.TargetProcess).1 hf
      unfold reloadProcess
      rw [hg]
      simp
    | some proc => simp [(hget config.TargetProcess).2 proc hf]

/-- Witness for C7: the target `nginx` is not among the listed processes. -/
theorem getPidByName_error_iff_witness :
    (getPidByName sampleOSNoTarget "nginx").2 ≠ none
      ∧ (getPidByName sampleOSNoTarget "nginx").1 = -1
      ∧ (reloadProcess sampleConfig sampleOSNoTarget).1
          = (getPidByName sampleOSNoTarget "nginx").2 :=
  ⟨((getPidByName_error_iff sampleConfig sampleOSNoTarget [⟨1, "init"⟩] rfl).1 "nginx").mpr
      (by decide),
    by decide, by decide⟩

/-! ## Claims about the configuration -/

theorem intFromEnvWithDefault_unset (atoi : String → Int × Option String) (env : Env)
    (key : String) (fallback : Int) (h : env key = none) :
    intFromEnvWithDefault atoi env key fallback = (fallback, none) := by
  simp [intFromEnvWithDefault, stringFromEnv, h]

theorem intFromEnvWithDefault_err_iff (atoi : String → Int × Option String) (env : Env)
    (key : String) (fallback : Int) :
    (intFromEnvWithDefault atoi env key fallback).2 ≠ none
      ↔ ∃ val, env key = some val ∧ (atoi val).2 ≠ none := by
  unfold intFromEnvWithDefault stringFromEnv
  cases h : env key with
  | none => simp
  | some val =>
    rcases ha : atoi val with ⟨n, _ | e⟩ <;> simp [ha]

/-- C8: `getConfig` returns an error exactly when `TARGET_FILES`, `RELOAD_SIGNAL` or
`TARGET_PROCESS` is not set, or the signal name resolves to signal number 0, or one of the two
duration variables is set to a value that `strconv.Atoi` rejects; with the three required
values valid and neither duration variable set it succeeds with both durations equal to 1. -/
theorem getConfig_error_iff (signalNum : String → Int) (atoi : String → Int × Option String)
    (env : Env) :
    ((getConfig signalNum atoi env).2 ≠ none
        ↔ (env "TARGET_FILES" = none ∨ env "RELOAD_SIGNAL" = none ∨ env "TARGET_PROCESS" = none
          ∨ (∃ name, env "RELOAD_SIGNAL" = some name ∧ signalNum name = 0)
          ∨ (∃ val, env "SLEEP_DURATION" = some val ∧ (atoi val).2 ≠ none)
          ∨ (∃ val, env "SLEEP_BEFORE_RELOAD_DURATION" = some val ∧ (atoi val).2 ≠ none)))
      ∧ (env "SLEEP_DURATION" = none → env "SLEEP_BEFORE_RELOAD_DURATION" = none
          → env "TARGET_FILES" ≠ none → env "TARGET_PROCESS" ≠ none
          → (∃ name, env "RELOAD_SIGNAL" = some name ∧ signalNum name ≠ 0)
          → (getConfig signalNum atoi env).2 = none
            ∧ (getConfig signalNum atoi env).1.SleepDuration = 1
            ∧ (getConfig signalNum atoi env).1.SleepBeforeReloadDuration = 1) := by
  have hd1 := intFromEnvWithDefault_err_iff atoi env "SLEEP_DURATION" 1
  have hd2 := intFromEnvWithDefault_err_iff atoi env "SLEEP_BEFORE_RELOAD_DURATION" 1
  constructor
  · rw [← hd1, ← hd2]
    unfold getConfig stringFromEnv
    cases h1 : env "TARGET_FILES" with
    | none => simp
    | some files =>
      cases h2 : env "RELOAD_SIGNAL" with
      | none => simp
      | some name =>
        by_cases h0 : signalNum name = 0
        · simp [h0]
        · cases h3 : env "TARGET_PROCESS" with
          | none => simp [h0]
          | some proc =>
            rcases h4 : intFromEnvWithDefault atoi env "SLEEP_DURATION" 1 with ⟨n4, _ | e4⟩
            · rcases h5 : intFromEnvWithDefault atoi env "SLEEP_BEFORE_RELOAD_DURATION" 1
                with ⟨n5, _ | e5⟩
              · simp [h0]
              · simp [h0]
            · simp [h0]
  · intro h4 h5 h1 h3 h2
    obtain ⟨name, h2, h0⟩ := h2
    obtain ⟨files, h1⟩ := Option.ne_none_iff_exists'.mp h1
    obtain ⟨proc, h3⟩ := Option.ne_none_iff_exists'.mp h3
    have e4 := intFromEnvWithDefault_unset atoi env "SLEEP_DURATION" 1 h4
    have e5 := intFromEnvWithDefault_unset atoi env "SLEEP_BEFORE_RELOAD_DURATION" 1 h5
    unfold getConfig stringFromEnv
    simp [h1, h2, h3, h0, e4, e5]

/-- Witness for C8: the three required variables are set and valid, the durations are not. -/
theorem getConfig_error_iff_witness :
    (getConfig sampleSignalNum sampleAtoi sampleEnv).2 = none
      ∧ (getConfig sampleSignalNum sampleAtoi sampleEnv).1.SleepDuration = 1
      ∧ (getConfig sampleSignalNum sampleAtoi sampleEnv).1.SleepBeforeReloadDuration = 1 :=
  (getConfig_error_iff sampleSignalNum sampleAtoi sampleEnv).2 (by decide) (by decide)
    (by decide) (by decide) ⟨"SIGHUP", by decide, by decide⟩

/-! ## Claims about deletion and about the key sets -/

/-- While a path stays unreadable and its baseline is the sentinel, no iteration dispatches
for it. -/
theorem runTicks_unreadable (sha256 : List Byte → List Byte) (config : Config) (path : String)
    (hpath : path ∈ config.TargetFiles) (ticks : List Tick) (s : State)
    (hk : KeysOk config s)
    (hold : mapGet s.oldFileHashes path = "")
    (horders : ∀ u ∈ ticks, u.order.Perm (mapKeys s.oldFileHashes))
    (hgone : ∀ u ∈ ticks, (u.fs path).observed = none) :
    ∀ r ∈ (runTicks sha256 config ticks s).2,
      (r.dispatches.map Dispatch.path).count path = 0 := by
  induction ticks generalizing s with
  | nil => simp [runTicks]
  | cons t rest ih =>
    have horder := horders t (List.mem_cons_self t rest)
    have hfp : (hashFile sha256 t.fs path).1 = "" :=
      hashFile_of_observed_none sha256 t.fs path (hgone t (List.mem_cons_self t rest))
    have hkeys := mapKeys_tick_old sha256 config t s horder
    have hnext : mapGet (tick sha256 config t s).1.oldFileHashes path = "" := by
      rw [mapGet_tick_old sha256 config t s hk horder path hpath, hfp]
    have hrest := ih (tick sha256 config t s).1 (keysOk_tick sha256 config t s hk horder) hnext
      (fun u hu => by rw [hkeys]; exact horders u (List.mem_cons_of_mem t hu))
      (fun u hu => hgone u (List.mem_cons_of_mem t hu))
    intro r hr
    simp only [runTicks, List.mem_cons] at hr
    rcases hr with rfl | hr
    · rw [dispatch_paths_tick sha256 config t s hk horder]
      apply List.count_eq_zero_of_not_mem
      intro hmem
      have := (List.mem_filter.mp hmem).2
      simp [hold, hfp] at this
    · exact hrest r hr

/-- C9: a watched path that was readable when its baseline was recorded and is unreadable
in this iteration and in all iterations that follow is dispatched exactly once, in this
iteration, with the empty string as new fingerprint; the empty string differs from the hex
digest of every content (a SHA-256 digest has 32 bytes), and no later iteration dispatches
for the path. -/
theorem deletion_dispatched_once (sha256 : List Byte → List Byte) (config : Config)
    (s : State) (t : Tick) (rest : List Tick) (fsBase : FileSystem) (path : String)
    (c : List Byte)
    (hsize : ∀ bytes, (sha256 bytes).length = 32)
    (hs : Reachable sha256 config s)
    (hpath : path ∈ config.TargetFiles)
    (hbase : mapGet s.oldFileHashes path = (hashFile sha256 fsBase path).1)
    (hold : (fsBase path).observed = some c)
    (horders : ∀ u ∈ t :: rest, u.order.Perm (mapKeys s.oldFileHashes))
    (hgone : ∀ u ∈ t :: rest, (u.fs path).observed = none) :
    ((tick sha256 config t s).2.dispatches.map Dispatch.path).count path = 1
      ∧ (∀ d ∈ (tick sha256 config t s).2.dispatches, d.path = path
          → d.oldHash = EncodeToString (sha256 c) ∧ d.newHash = "")
      ∧ (∀ bytes, EncodeToString (sha256 bytes) ≠ "")
      ∧ mapGet (tick sha256 config t s).1.oldFileHashes path = ""
      ∧ (∀ r ∈ (runTicks sha256 config rest (tick sha256 config t s).1).2,
          (r.dispatches.map Dispatch.path).count path = 0)
      ∧ ((runTicks sha256 config (t :: rest) s).2.map
          (fun r => (r.dispatches.map Dispatch.path).count path)).sum = 1 := by
  have hk := keysOk_of_reachable sha256 config s hs
  have horder := horders t (List.mem_cons_self t rest)
  have hnd : t.order.Nodup := horder.nodup_iff.mpr hk.1
  have hne : ∀ bytes, EncodeToString (sha256 bytes) ≠ "" := by
    intro bytes
    apply EncodeToString_ne_empty
    intro e
    have := hsize bytes
    rw [e] at this
    simp at this
  have hfp : (hashFile sha256 t.fs path).1 = "" :=
    hashFile_of_observed_none sha256 t.fs path (hgone t (List.mem_cons_self t rest))
  have hold2 : mapGet s.oldFileHashes path = EncodeToString (sha256 c) := by
    rw [hbase]
    exact hashFile_of_observed_some sha256 fsBase path c hold
  have hmem : path ∈ t.order := horder.symm.subset ((hk.2.1 path).mpr hpath)
  have hkeys := mapKeys_tick_old sha256 config t s horder
  have hnext : mapGet (tick sha256 config t s).1.oldFileHashes path = "" := by
    rw [mapGet_tick_old sha256 config t s hk horder path hpath, hfp]
  have hone : ((tick sha256 config t s).2.dispatches.map Dispatch.path).count path = 1 := by
    rw [dispatch_paths_tick sha256 config t s hk horder]
    apply List.count_eq_one_of_mem (hnd.filter _)
    apply List.mem_filter.mpr
    refine ⟨hmem, ?_⟩
    simp [hold2, hfp, hne c]
  have hlater := runTicks_unreadable sha256 config path hpath rest (tick sha256 config t s).1
    (keysOk_tick sha256 config t s hk horder) hnext
    (fun u hu => by rw [hkeys]; exact horders u (List.mem_cons_of_mem t hu))
    (fun u hu => hgone u (List.mem_cons_of_mem t hu))
  refine ⟨hone, ?_, hne, hnext, hlater, ?_⟩
  · intro d hd hdp
    rw [dispatches_tick sha256 config t s hk horder, List.mem_map] at hd
    obtain ⟨p, _, rfl⟩ := hd
    have hpp : p = path := hdp
    subst hpp
    refine ⟨hold2, ?_⟩
    show mapGet (tick sha256 config t s).1.newFileHashes p = ""
    rw [mapGet_tick_new sha256 config t s p hpath, hfp]
  · have hzero : ((runTicks sha256 config rest (tick sha256 config t s).1).2.map
        (fun r => (r.dispatches.map Dispatch.path).count path)).sum = 0 := by
      apply List.sum_eq_zero
      intro n hn
      obtain ⟨r, hr, rfl⟩ := List.mem_map.mp hn
      exact hlater r hr
    simp only [runTicks, List.map_cons, List.sum_cons]
    rw [hone, hzero]

/-- Witness for C9: `a.conf` is deleted and stays away for three iterations. -/
theorem deletion_dispatched_once_witness :
    ((runTicks sampleDigest sampleConfig
        [⟨sampleFsGone, ["b.conf", "a.conf"], fun _ => sampleOS⟩,
          ⟨sampleFsGone, ["a.conf", "b.conf"], fun _ => sampleOS⟩,
          ⟨sampleFsGone, ["b.conf", "a.conf"], fun _ => sampleOS⟩]
        (initState sampleDigest sampleConfig sampleFs0)).2.map
      (fun r => (r.dispatches.map Dispatch.path).count "a.conf")).sum = 1 :=
  (deletion_dispatched_once sampleDigest sampleConfig
    (initState sampleDigest sampleConfig sampleFs0)
    ⟨sampleFsGone, ["b.conf", "a.conf"], fun _ => sampleOS⟩
    [⟨sampleFsGone, ["a.conf", "b.conf"], fun _ => sampleOS⟩,
      ⟨sampleFsGone, ["b.conf", "a.conf"], fun _ => sampleOS⟩]
    sampleFs0 "a.conf" []
    (fun _ => by simp [sampleDigest]) (Reachable.init sampleFs0) (by decide) (by decide)
    (by decide) (by decide) (by decide)).2.2.2.2.2

/-- C10: the initial call of `updateFileHashes` on the empty map leaves exactly one entry per
watched path, holding the hex digest of the file or the empty string when it is unreadable;
every state at the top of the loop has these keys, an iteration neither adds nor removes a key
of `oldFileHashes`, and after its snapshot `newFileHashes` has the same keys. -/
theorem key_set_invariant (sha256 : List Byte → List Byte) (config : Config)
    (fs0 : FileSystem) (s : State) (t : Tick)
    (hs : Reachable sha256 config s)
    (horder : t.order.Perm (mapKeys s.oldFileHashes)) :
    ((mapKeys (updateFileHashes sha256 fs0 config []).1).Nodup
        ∧ (∀ p, p ∈ mapKeys (updateFileHashes sha256 fs0 config []).1 ↔ p ∈ config.TargetFiles)
        ∧ (∀ p ∈ config.TargetFiles, mapGet (updateFileHashes sha256 fs0 config []).1 p
            = match (fs0 p).observed with
              | some bytes => EncodeToString (sha256 bytes)
              | none => ""))
      ∧ ((mapKeys s.oldFileHashes).Nodup
        ∧ ∀ p, p ∈ mapKeys s.oldFileHashes ↔ p ∈ config.TargetFiles)
      ∧ mapKeys (tick sha256 config t s).1.oldFileHashes = mapKeys s.oldFileHashes
      ∧ (mapKeys (tick sha256 config t s).1.newFileHashes).Nodup
      ∧ (∀ p, p ∈ mapKeys (tick sha256 config t s).1.newFileHashes
          ↔ p ∈ mapKeys (tick sha256 config t s).1.oldFileHashes) := by
  have hk := keysOk_of_reachable sha256 config s hs
  have hk0 := keysOk_initState sha256 config fs0
  have hk1 := keysOk_tick sha256 config t s hk horder
  refine ⟨⟨hk0.1, hk0.2.1, ?_⟩, ⟨hk.1, hk.2.1⟩, mapKeys_tick_old sha256 config t s horder,
    hk1.2.2.1, ?_⟩
  · intro p hp
    rw [updateFileHashes, mapGet_updateLoop]
    simp only [hp, if_true]
    cases hobs : (fs0 p).observed with
    | none => exact hashFile_of_observed_none sha256 fs0 p hobs
    | some bytes => exact hashFile_of_observed_some sha256 fs0 p bytes hobs
  · intro p
    rw [mem_mapKeys_tick_new sha256 config t s hk p]
    exact (hk1.2.1 p).symm

/-- Witness for C10: the baseline of the sample configuration followed by one iteration. -/
theorem key_set_invariant_witness :
    mapKeys (tick sampleDigest sampleConfig ⟨sampleFsGone, ["b.conf", "a.conf"], fun _ => sampleOS⟩
        (initState sampleDigest sampleConfig sampleFs0)).1.oldFileHashes
      = mapKeys (initState sampleDigest sampleConfig sampleFs0).oldFileHashes :=
  (key_set_invariant sampleDigest sampleConfig sampleFs0
    (initState sampleDigest sampleConfig sampleFs0)
    ⟨sampleFsGone, ["b.conf", "a.conf"], fun _ => sampleOS⟩
    (Reachable.init sampleFs0) (by decide)).2.2.1

end ConfigWatcher
